import Mathlib

/-!
# Verification of the py-yedis time-series command adapter

Shallow embedding of `src/yedis/client.py`: the Python values handled by the
adapter, the binary64 floating-point arithmetic CPython performs in the time
converters, the time converters themselves, the response decoder and the
command-argument builders.  Theorems at the end settle the specification
claims about this code.

Conventions:
* Python `int` is `ℤ`, Python `str` is `String`.
* A finite Python `float` is represented by its exact rational value; every
  arithmetic step that CPython performs on doubles is modelled by the exact
  operation followed by `roundF64`, correct rounding to 53 significant bits
  with ties to even (the magnitudes appearing here are far away from the
  overflow and subnormal ranges of binary64, so neither needs a model).
* Python `datetime.datetime` is modelled by the microseconds-since-epoch
  value of its naive calendar fields together with an optional fixed UTC
  offset in seconds (`tzinfo`); `pytz.utc` is offset `0`.  Calendar
  constructors go through the proleptic-Gregorian day-number computation
  `daysFromCivil`.  `datetime.fromtimestamp` rounds float seconds to the
  nearest microsecond and enforces the supported year range 1–9999.
* Functions that can raise return `Except String`.
* Each adapter method of class `Yedis` builds a list of command arguments
  (`pieces` in the source) and hands it to `execute_command`; the embedding
  returns that list.  An `Except.error` result models an exception raised
  before `execute_command` is reached, so no command is ever sent.

Definitions suffixed `Exact` are the real-number abstraction of the same
source formula: every floating-point intermediate is evaluated as an exact
rational and only the final `int(...)` truncates.  They are used by the
amended claims; the unsuffixed definitions carry the binary64 roundings and
witness the counterexamples.
-/

attribute [local semireducible] Rat.mul Rat.inv Rat.add Rat.sub

set_option maxRecDepth 80000

namespace Yedis

/-! ## Python values -/

/-- A Python `float`: a finite binary64 value (kept as its exact rational),
one of the two infinities, or a NaN. -/
inductive PyFloat where
  | fin (q : ℚ)
  | pinf
  | minf
  | nan
  deriving DecidableEq

/-- Test `math.isinf` on a float. -/
def PyFloat.isinf : PyFloat → Bool
  | .pinf => true
  | .minf => true
  | _ => false

/-- A Python `datetime.datetime`: `usec` is the microseconds-since-epoch
value of its naive calendar fields (read as if they were UTC), `tz` an
optional fixed UTC offset in seconds (`pytz.utc` is `some 0`, a naive
datetime is `none`). -/
structure PyDatetime where
  usec : ℤ
  tz : Option ℤ
  deriving DecidableEq

/-- The Python values the adapter passes around. `tok` is a
`redis.connection.Token` (a cached command word such as `LIMIT`). -/
inductive PyVal where
  | none
  | int (n : ℤ)
  | float (x : PyFloat)
  | str (s : String)
  | dt (t : PyDatetime)
  | tok (s : String)
  deriving DecidableEq

/-- The float `-inf`: the module-level constant `m_inf = float('-inf')`. -/
def m_inf : PyVal := .float .minf

/-- The float `inf`: the module-level constant `p_inf = float('inf')`. -/
def p_inf : PyVal := .float .pinf

/-- Test `isinstance(v, float) and isinf(v)` on a Python value. -/
def isInfFloat : PyVal → Bool
  | .float x => x.isinf
  | _ => false

/-! ## Binary64 arithmetic

CPython rounds every float operation to the nearest binary64 value, ties to
even.  `roundF64 q` is that rounding applied to the exact rational `q`
(53 significant bits, unbounded exponent: all quantities in this file stay
far inside the normal range of binary64). -/

/-- Round the nonnegative rational `n / d` to the nearest natural number,
ties to even (`d` is assumed positive). -/
def rheNat (n d : ℕ) : ℕ :=
  let q := n / d
  let r := n % d
  if 2 * r < d then q
  else if d < 2 * r then q + 1
  else if q % 2 = 0 then q else q + 1

/-- Round a rational to the nearest integer, ties to even. -/
def rheInt (q : ℚ) : ℤ :=
  if q < 0 then -(rheNat (-q).num.natAbs (-q).den : ℤ)
  else (rheNat q.num.natAbs q.den : ℤ)

/-- Fuel-driven base-2 integer logarithm (0 for `n ≤ 1`); the fuel 320
covers every number below `2 ^ 320`, far beyond anything in this file. -/
def natLog2Aux : ℕ → ℕ → ℕ
  | 0, _ => 0
  | fuel + 1, n => if n ≤ 1 then 0 else natLog2Aux fuel (n / 2) + 1

/-- Base-2 integer logarithm of a natural number (0 for `n = 0`). -/
def natLog2 (n : ℕ) : ℕ := natLog2Aux 320 n

/-- Base-2 integer logarithm (floor) of a positive rational. -/
def qlog2 (a : ℚ) : ℤ :=
  let l0 : ℤ := (natLog2 a.num.natAbs : ℤ) - (natLog2 a.den : ℤ)
  if (2 : ℚ) ^ l0 ≤ a then l0 else l0 - 1

/-- Correct rounding of an exact rational to binary64: round to 53
significant bits, ties to even. -/
def roundF64 (q : ℚ) : ℚ :=
  if q = 0 then 0
  else
    let e : ℤ := qlog2 |q| - 52
    (rheInt (q * (2 : ℚ) ^ (-e)) : ℚ) * (2 : ℚ) ^ e

/-- The double produced by converting a Python `int` to `float`. -/
def f64OfInt (n : ℤ) : ℚ := roundF64 (n : ℚ)

/-- Product of two doubles, rounded as CPython's `*` rounds it. -/
def fmul (x y : ℚ) : ℚ := roundF64 (x * y)

/-- Result of CPython's `int / int` true division: correctly rounded to a
double. -/
def fdivInt (a b : ℤ) : ℚ := roundF64 ((a : ℚ) / (b : ℚ))

/-- Python `int(x)` on a finite float value: truncation toward zero. -/
def pyTrunc (q : ℚ) : ℤ := q.num.tdiv (q.den : ℤ)

/-- The binary64 value of the literal `1e-3`. -/
def f64_1e_minus3 : ℚ := roundF64 (1 / 1000)

/-! ## Calendar and datetimes -/

/-- Day number since 1970-01-01 of a proleptic-Gregorian calendar date
(valid for years `y ≥ 1`, the range Python datetimes support). -/
def daysFromCivil (y m d : ℕ) : ℤ :=
  let y' := if m ≤ 2 then y - 1 else y
  let era := y' / 400
  let yoe := y' % 400
  let doy := (153 * (if m ≤ 2 then m + 9 else m - 3) + 2) / 5 + d - 1
  let doe := yoe * 365 + yoe / 4 - yoe / 100 + doy
  (era * 146097 + doe : ℤ) - 719468

/-- The Python constructor `datetime(y, m, d, hh, mi, ss, us, tzinfo=tz)`. -/
def mkDatetime (y m d hh mi ss us : ℕ) (tz : Option ℤ) : PyDatetime :=
  ⟨daysFromCivil y m d * 86400000000 + (hh * 3600 + mi * 60 + ss : ℕ) * 1000000 + us, tz⟩

/-- The class attribute `_epoch = datetime.datetime(1970, 1, 1, tzinfo=pytz.utc)`. -/
def epochDT : PyDatetime := mkDatetime 1970 1 1 0 0 0 0 (some 0)

/-- Result of `tz.localize(tm)` for a fixed-offset timezone: attach the
offset without moving the calendar fields. -/
def localize (off : ℤ) (t : PyDatetime) : PyDatetime := ⟨t.usec, some off⟩

/-- Instant denoted by an aware datetime, in microseconds since the epoch
(a naive datetime is read as UTC). -/
def awareUsec (t : PyDatetime) : ℤ := t.usec - (t.tz.getD 0) * 1000000

/-- Microseconds of the exact timedelta `a - b` of two aware datetimes. -/
def dtSubUsec (a b : PyDatetime) : ℤ := awareUsec a - awareUsec b

/-- Python `timedelta.total_seconds()` on a timedelta of `usd` microseconds:
the correctly rounded double of
`((days * 86400 + seconds) * 10**6 + microseconds) / 10**6`. -/
def total_seconds (usd : ℤ) : ℚ := fdivInt usd 1000000

/-- Method `DatetimeToTimestamp.__call__`, binary64-faithful: localize a
naive `tm` into the configured timezone (`None` means UTC), subtract the
epoch, `total_seconds() * 1e3`, and truncate with `int`. -/
def DatetimeToTimestamp (tz : Option ℤ) (tm : PyDatetime) : ℤ :=
  let off := tz.getD 0
  match tm.tz with
  | Option.none => pyTrunc (fmul (total_seconds (dtSubUsec (localize off tm) epochDT)) 1000)
  | some _ => pyTrunc (fmul (total_seconds (dtSubUsec tm epochDT)) 1000)

/-- Method `DatetimeToTimestamp.__call__` with every floating-point
intermediate evaluated exactly; only the final `int` truncates. -/
def DatetimeToTimestampExact (tz : Option ℤ) (tm : PyDatetime) : ℤ :=
  let off := tz.getD 0
  match tm.tz with
  | Option.none => pyTrunc ((dtSubUsec (localize off tm) epochDT : ℚ) / 1000000 * 1000)
  | some _ => pyTrunc ((dtSubUsec tm epochDT : ℚ) / 1000000 * 1000)

/-- Function `unixtime_to_timestamp`, binary64-faithful: `int(tm * 1000)`
(the literal 1000 is exact in binary64). -/
def unixtime_to_timestamp (tm : ℚ) : ℤ := pyTrunc (fmul tm 1000)

/-- Function `unixtime_to_timestamp` with exact arithmetic. -/
def unixtime_to_timestampExact (tm : ℚ) : ℤ := pyTrunc (tm * 1000)

/-- Function `timestamp_to_unix`, binary64-faithful: `int(ts) * 1e-3`. -/
def timestamp_to_unix (ts : ℤ) : ℚ := fmul (f64OfInt ts) f64_1e_minus3

/-- Function `timestamp_to_unix` with exact arithmetic: `ts * 10⁻³`. -/
def timestamp_to_unixExact (ts : ℤ) : ℚ := (ts : ℚ) * (1 / 1000)

/-- Microseconds-since-epoch of `datetime.min = datetime(1, 1, 1)`. -/
def usecMin : ℤ := (mkDatetime 1 1 1 0 0 0 0 Option.none).usec

/-- Microseconds-since-epoch of
`datetime.max = datetime(9999, 12, 31, 23, 59, 59, 999999)`. -/
def usecMax : ℤ := (mkDatetime 9999 12 31 23 59 59 999999 Option.none).usec

/-- Python `datetime.datetime.fromtimestamp(s, tz)` for a fixed-offset
timezone: round the float seconds to the nearest microsecond (ties to
even), shift into the timezone's local time, and raise when the local
calendar date falls outside the supported years 1–9999. -/
def fromtimestamp (s : ℚ) (off : ℤ) : Except String PyDatetime :=
  let us := rheInt (s * 1000000)
  let naive := us + off * 1000000
  if usecMin ≤ naive ∧ naive ≤ usecMax then Except.ok ⟨naive, some off⟩
  else Except.error "year is out of range"

/-- Method `TimestampToDatetime.__call__`, binary64-faithful:
`datetime.fromtimestamp(timestamp_to_unix(ts), tz)` (`None` means UTC). -/
def TimestampToDatetime (tz : Option ℤ) (ts : ℤ) : Except String PyDatetime :=
  fromtimestamp (timestamp_to_unix ts) (tz.getD 0)

/-- Method `TimestampToDatetime.__call__` with the unix-seconds
intermediate evaluated exactly. -/
def TimestampToDatetimeExact (tz : Option ℤ) (ts : ℤ) : Except String PyDatetime :=
  fromtimestamp (timestamp_to_unixExact ts) (tz.getD 0)

/-- Spec-side: the instant denoted by `tm` in microseconds since the epoch,
interpreted in the offset `off` when `tm` is naive and in its own timezone
otherwise. -/
def interpUsec (off : ℤ) (tm : PyDatetime) : ℤ := tm.usec - (tm.tz.getD off) * 1000000

/-! ## Response decoding -/

/-- Accumulating decimal parser for the digits of a Python `int` literal
(`none` when a non-digit appears or the digit string is empty). -/
def parseDecAux : Option ℕ → List Char → Option ℕ
  | acc, [] => acc
  | acc, c :: cs =>
    if c.isDigit then parseDecAux (some ((acc.getD 0) * 10 + (c.toNat - 48))) cs
    else Option.none

/-- Python's built-in `int` applied to a server scalar: identity on ints,
truncation on finite floats, decimal parse on strings.  On the remaining
values Python raises `TypeError`/`ValueError`; those are modelled as
`PyVal.none` and are unreachable for well-formed server replies. -/
def pyIntFn : PyVal → PyVal
  | .int n => .int n
  | .float (.fin q) => .int (pyTrunc q)
  | .str s =>
    match s.toList with
    | '-' :: cs => (parseDecAux Option.none cs).elim PyVal.none fun n => .int (-(n : ℤ))
    | cs => (parseDecAux Option.none cs).elim PyVal.none fun n => .int (n : ℤ)
  | _ => .none

/-- Shared-iterator pairing `izip(imap(f, it), it)`: the elements at even
positions are cast by `f` and paired with their successors; a trailing
unpaired element is dropped when the underlying iterator is exhausted. -/
def pairCast (f : PyVal → PyVal) : List PyVal → List (PyVal × PyVal)
  | t :: v :: rest => (f t, v) :: pairCast f rest
  | _ => []

/-- Function `timeseries_time_value_pairs`: a falsy (empty) response is
returned unchanged, otherwise the flat response is decoded into (time,
value) pairs, casting times with `options.get('timestamp_cast_func', int)`. -/
def timeseries_time_value_pairs (timestamp_cast_func : Option (PyVal → PyVal))
    (response : List PyVal) : List (PyVal × PyVal) :=
  match response with
  | [] => []
  | _ :: _ => pairCast (timestamp_cast_func.getD pyIntFn) response

/-! ## Command-argument builders -/

/-- Elements of a list at even indices: the slice `l[0::2]`. -/
def sliceEvens : List PyVal → List PyVal
  | [] => []
  | [x] => [x]
  | x :: _ :: rest => x :: sliceEvens rest

/-- Elements of a list at odd indices: the slice `l[1::2]`. -/
def sliceOdds : List PyVal → List PyVal
  | [] => []
  | [_] => []
  | _ :: y :: rest => y :: sliceOdds rest

/-- Flattening of a pairwise zip:
`chain.from_iterable(izip(xs, ys))`, truncating at the shorter list. -/
def chainFromZip : List PyVal → List PyVal → List PyVal
  | x :: xs, y :: ys => x :: y :: chainFromZip xs ys
  | _, _ => []

/-- Method `Yedis.tsadd`: start from `['TSADD', name]`; a non-empty
`times_and_values` of odd length raises
`RedisError("TSADD requires an equal number of times and values")` before
any command is sent; otherwise the times slice is cast by
`time_cast_func` (passed through unchanged when it is `None`) and
re-interleaved with the values slice. -/
def tsadd (name : PyVal) (times_and_values : List PyVal)
    (time_cast_func : Option (PyVal → PyVal)) : Except String (List PyVal) :=
  let pieces := [PyVal.str "TSADD", name]
  if times_and_values = [] then Except.ok pieces
  else if times_and_values.length % 2 ≠ 0 then
    Except.error "TSADD requires an equal number of times and values"
  else
    match time_cast_func with
    | Option.none => Except.ok (pieces ++ times_and_values)
    | some f =>
      Except.ok (pieces ++ chainFromZip ((sliceEvens times_and_values).map f)
        (sliceOdds times_and_values))

/-- Method `Yedis.tsrangebytime`: build
`['TSRANGEBYTIME', name, low, high]` where a bound that is `None` or an
infinite float becomes the matching sentinel (`m_inf` low, `p_inf` high)
and any other bound is cast by `time_cast_func` (raw when it is `None`). -/
def tsrangebytime (name : PyVal) (tm_low tm_high : Option PyVal)
    (time_cast_func : Option (PyVal → PyVal)) : List PyVal :=
  let pieces := [PyVal.str "TSRANGEBYTIME", name]
  let pieces :=
    match tm_low with
    | Option.none => pieces ++ [m_inf]
    | some v =>
      if isInfFloat v then pieces ++ [m_inf]
      else
        match time_cast_func with
        | Option.none => pieces ++ [v]
        | some f => pieces ++ [f v]
  match tm_high with
  | Option.none => pieces ++ [p_inf]
  | some v =>
    if isInfFloat v then pieces ++ [p_inf]
    else
      match time_cast_func with
      | Option.none => pieces ++ [v]
      | some f => pieces ++ [f v]

/-- Method `Yedis.tsrevrangebytime`: same bound handling as
`tsrangebytime`, then `pieces.extend([Token.get_token('LIMIT'), num])`
when `num` is given. -/
def tsrevrangebytime (name : PyVal) (tm_low tm_high num : Option PyVal)
    (time_cast_func : Option (PyVal → PyVal)) : List PyVal :=
  let pieces := [PyVal.str "TSREVRANGEBYTIME", name]
  let pieces :=
    match tm_low with
    | Option.none => pieces ++ [m_inf]
    | some v =>
      if isInfFloat v then pieces ++ [m_inf]
      else
        match time_cast_func with
        | Option.none => pieces ++ [v]
        | some f => pieces ++ [f v]
  let pieces :=
    match tm_high with
    | Option.none => pieces ++ [p_inf]
    | some v =>
      if isInfFloat v then pieces ++ [p_inf]
      else
        match time_cast_func with
        | Option.none => pieces ++ [v]
        | some f => pieces ++ [f v]
  match num with
  | Option.none => pieces
  | some n => pieces ++ [PyVal.tok "LIMIT", n]

/-! ## Spec-side shapes

These definitions follow the wording of the specification claims; the
theorems relate them to the source-structured definitions above. -/

/-- Spec-side: a flat alternating `time, value, time, value, ...` list. -/
def flattenPairs : List (PyVal × PyVal) → List PyVal
  | [] => []
  | (t, v) :: rest => t :: v :: flattenPairs rest

/-- Spec-side: what one range-bound argument must be according to the
spec: the sentinel when the bound is absent or an infinite float, the cast
bound otherwise (raw when the cast is `None`). -/
def boundArgSpec (sentinel : PyVal) (tm : Option PyVal)
    (time_cast_func : Option (PyVal → PyVal)) : PyVal :=
  match tm with
  | Option.none => sentinel
  | some v =>
    if isInfFloat v then sentinel
    else
      match time_cast_func with
      | Option.none => v
      | some f => f v

/-- Spec-side: the trailing LIMIT clause demanded by the spec when `num`
is given. -/
def limitArgSpec : Option PyVal → List PyVal
  | Option.none => []
  | some n => [PyVal.tok "LIMIT", n]

/-! ## Helper lemmas -/

instance {ε α : Type} [DecidableEq ε] [DecidableEq α] : DecidableEq (Except ε α) := fun a b =>
  match a, b with
  | .ok x, .ok y => decidable_of_iff (x = y) (by simp)
  | .error e, .error e' => decidable_of_iff (e = e') (by simp)
  | .ok _, .error _ => isFalse fun h => Except.noConfusion h
  | .error _, .ok _ => isFalse fun h => Except.noConfusion h

theorem pyTrunc_intCast (n : ℤ) : pyTrunc (n : ℚ) = n := by
  simp [pyTrunc, Rat.num_intCast, Rat.den_intCast]

theorem pyTrunc_neg (q : ℚ) : pyTrunc (-q) = -pyTrunc q := by
  simp [pyTrunc, Rat.num_neg_eq_neg_num, Rat.den_neg_eq_den, Int.neg_tdiv]

theorem pyTrunc_eq_floor_of_nonneg (q : ℚ) (hq : 0 ≤ q) : pyTrunc q = ⌊q⌋ := by
  rw [Rat.floor_def, pyTrunc]
  exact Int.tdiv_eq_ediv (Rat.num_nonneg.mpr hq) (Int.natCast_nonneg _)

theorem pyTrunc_intCast_div (n : ℤ) (d : ℕ) :
    pyTrunc ((n : ℚ) / (d : ℚ)) = n.tdiv d := by
  rcases le_or_lt 0 n with hn | hn
  · have hn' : (0 : ℚ) ≤ (n : ℚ) := by exact_mod_cast hn
    have hd' : (0 : ℚ) ≤ (d : ℚ) := by positivity
    rw [pyTrunc_eq_floor_of_nonneg _ (div_nonneg hn' hd'), Rat.floor_intCast_div_natCast,
      Int.tdiv_eq_ediv hn (Int.natCast_nonneg d)]
  · have h1 : (n : ℚ) / (d : ℚ) = -(((-n : ℤ) : ℚ) / (d : ℚ)) := by push_cast; ring
    have hn' : (0 : ℚ) ≤ ((-n : ℤ) : ℚ) := by exact_mod_cast (by omega : (0 : ℤ) ≤ -n)
    have hd' : (0 : ℚ) ≤ (d : ℚ) := by positivity
    rw [h1, pyTrunc_neg, pyTrunc_eq_floor_of_nonneg _ (div_nonneg hn' hd'),
      Rat.floor_intCast_div_natCast, ← Int.tdiv_eq_ediv (by omega) (Int.natCast_nonneg d),
      Int.neg_tdiv, neg_neg]

/-- Exact evaluation of the source shape `int(usec / 10**6 * 1000)` is
millisecond truncation toward zero. -/
theorem pyTrunc_usec_ms (N : ℤ) : pyTrunc ((N : ℚ) / 1000000 * 1000) = N.tdiv 1000 := by
  have h : (N : ℚ) / 1000000 * 1000 = (N : ℚ) / ((1000 : ℕ) : ℚ) := by push_cast; ring
  rw [h, pyTrunc_intCast_div]
  norm_cast

theorem rheNat_one (n : ℕ) : rheNat n 1 = n := by
  simp [rheNat, Nat.mod_one, Nat.div_one]

theorem rheInt_intCast (n : ℤ) : rheInt (n : ℚ) = n := by
  rcases le_or_lt 0 n with hn | hn
  · have h1 : ¬((n : ℚ) < 0) := by exact_mod_cast not_lt.mpr hn
    rw [rheInt, if_neg h1, Rat.num_intCast, Rat.den_intCast, rheNat_one]
    omega
  · have h1 : (n : ℚ) < 0 := by exact_mod_cast hn
    have h2 : -(n : ℚ) = ((-n : ℤ) : ℚ) := by push_cast; ring
    rw [rheInt, if_pos h1, h2, Rat.num_intCast, Rat.den_intCast, rheNat_one]
    omega

theorem awareUsec_epochDT : awareUsec epochDT = 0 := by decide

theorem epochDT_usec : epochDT.usec = 0 := by decide

theorem epochDT_tz : epochDT.tz = some 0 := rfl

theorem flattenPairs_length (ps : List (PyVal × PyVal)) :
    (flattenPairs ps).length = 2 * ps.length := by
  induction ps with
  | nil => rfl
  | cons p rest ih =>
    cases p
    simp [flattenPairs, ih]
    omega

theorem sliceEvens_flatten (ps : List (PyVal × PyVal)) :
    sliceEvens (flattenPairs ps) = ps.map Prod.fst := by
  induction ps with
  | nil => rfl
  | cons p rest ih =>
    cases p
    simp [flattenPairs, sliceEvens, ih]

theorem sliceOdds_flatten (ps : List (PyVal × PyVal)) :
    sliceOdds (flattenPairs ps) = ps.map Prod.snd := by
  induction ps with
  | nil => rfl
  | cons p rest ih =>
    cases p
    simp [flattenPairs, sliceOdds, ih]

theorem chainFromZip_flatten (f : PyVal → PyVal) (ps : List (PyVal × PyVal)) :
    chainFromZip ((ps.map Prod.fst).map f) (ps.map Prod.snd)
      = flattenPairs (ps.map fun p => (f p.1, p.2)) := by
  induction ps with
  | nil => rfl
  | cons p rest ih =>
    cases p
    simp only [List.map_map] at ih ⊢
    simp [flattenPairs, chainFromZip, ih]

theorem pairCast_flatten (f : PyVal → PyVal) (ps : List (PyVal × PyVal)) :
    pairCast f (flattenPairs ps) = ps.map fun p => (f p.1, p.2) := by
  induction ps with
  | nil => rfl
  | cons p rest ih =>
    cases p
    simp [flattenPairs, pairCast, ih]

theorem pairCast_flatten_snoc (f : PyVal → PyVal) (ps : List (PyVal × PyVal)) (x : PyVal) :
    pairCast f (flattenPairs ps ++ [x]) = ps.map fun p => (f p.1, p.2) := by
  induction ps with
  | nil => rfl
  | cons p rest ih =>
    cases p
    simp [flattenPairs, pairCast, ih]

theorem tsrangebytime_eq (name : PyVal) (tm_low tm_high : Option PyVal)
    (tcf : Option (PyVal → PyVal)) :
    tsrangebytime name tm_low tm_high tcf
      = [PyVal.str "TSRANGEBYTIME", name, boundArgSpec m_inf tm_low tcf,
         boundArgSpec p_inf tm_high tcf] := by
  cases tm_low <;> cases tm_high <;> cases tcf <;>
    simp only [tsrangebytime, boundArgSpec] <;> (repeat' split) <;> simp

theorem tsrevrangebytime_eq (name : PyVal) (tm_low tm_high num : Option PyVal)
    (tcf : Option (PyVal → PyVal)) :
    tsrevrangebytime name tm_low tm_high num tcf
      = [PyVal.str "TSREVRANGEBYTIME", name, boundArgSpec m_inf tm_low tcf,
         boundArgSpec p_inf tm_high tcf] ++ limitArgSpec num := by
  cases tm_low <;> cases tm_high <;> cases num <;> cases tcf <;>
    simp only [tsrevrangebytime, boundArgSpec, limitArgSpec] <;> (repeat' split) <;> simp

theorem boundArgSpec_inf (s : PyVal) (x : PyFloat) (hx : x.isinf = true)
    (tcf : Option (PyVal → PyVal)) :
    boundArgSpec s (some (PyVal.float x)) tcf = s := by
  simp [boundArgSpec, isInfFloat, hx]

/-! ## Claims -/

/-- C1: for every call `tsadd(name, *times_and_values)` with
`times_and_values` non-empty of odd length, `tsadd` raises the argument
error immediately and locally: the call returns the `RedisError` before any
command list reaches `execute_command`, so nothing is sent and no state
changes. -/
theorem tsadd_odd_arguments_error (name : PyVal) (times_and_values : List PyVal)
    (tcf : Option (PyVal → PyVal)) (h : times_and_values.length % 2 = 1) :
    tsadd name times_and_values tcf
      = Except.error "TSADD requires an equal number of times and values" := by
  have hne : times_and_values ≠ [] := by
    intro e
    rw [e] at h
    simp at h
  unfold tsadd
  rw [if_neg hne, if_pos (by omega)]

/-- Witness for C1 at the one-element (odd) input `[0]`. -/
theorem tsadd_odd_arguments_error_witness :
    ([PyVal.int 0] : List PyVal).length % 2 = 1
    ∧ tsadd (PyVal.str "metric") [PyVal.int 0] Option.none
        = Except.error "TSADD requires an equal number of times and values" :=
  ⟨by decide,
   tsadd_odd_arguments_error (PyVal.str "metric") [PyVal.int 0] Option.none (by decide)⟩

/-- C2: on an even-length `times_and_values` of `2 n` elements, `tsadd`
builds `['TSADD', name, cast t1, v1, ..., cast tn, vn]` of length
`2 + 2 n`, converting each time with `time_cast_func` (leaving every
argument unchanged when it is `None`) and passing values through in pair
order; for `n = 0` the list is just `['TSADD', name]`. -/
theorem tsadd_builds_command :
    (∀ (name : PyVal) (f : PyVal → PyVal) (pairs : List (PyVal × PyVal)),
      tsadd name (flattenPairs pairs) (some f)
        = Except.ok (PyVal.str "TSADD" :: name ::
            flattenPairs (pairs.map fun p => (f p.1, p.2)))
      ∧ (PyVal.str "TSADD" :: name ::
            flattenPairs (pairs.map fun p => (f p.1, p.2))).length = 2 + 2 * pairs.length)
    ∧ (∀ (name : PyVal) (pairs : List (PyVal × PyVal)),
      tsadd name (flattenPairs pairs) Option.none
        = Except.ok (PyVal.str "TSADD" :: name :: flattenPairs pairs))
    ∧ (∀ (name : PyVal) (tcf : Option (PyVal → PyVal)),
      tsadd name [] tcf = Except.ok [PyVal.str "TSADD", name]) := by
  have key : ∀ (name : PyVal) (tcf : Option (PyVal → PyVal)) (pairs : List (PyVal × PyVal)),
      tsadd name (flattenPairs pairs) tcf
        = Except.ok (PyVal.str "TSADD" :: name ::
            (match tcf with
             | Option.none => flattenPairs pairs
             | some f => flattenPairs (pairs.map fun p => (f p.1, p.2)))) := by
    intro name tcf pairs
    cases pairs with
    | nil => cases tcf <;> rfl
    | cons p rest =>
      cases p with
      | mk t v =>
        have hne : flattenPairs ((t, v) :: rest) ≠ [] := by simp [flattenPairs]
        have hev : ¬(flattenPairs ((t, v) :: rest)).length % 2 ≠ 0 := by
          rw [flattenPairs_length]
          omega
        cases tcf with
        | none =>
          unfold tsadd
          rw [if_neg hne, if_neg hev]
          rfl
        | some f =>
          unfold tsadd
          rw [if_neg hne, if_neg hev]
          show Except.ok ([PyVal.str "TSADD", name]
              ++ chainFromZip ((sliceEvens (flattenPairs ((t, v) :: rest))).map f)
                (sliceOdds (flattenPairs ((t, v) :: rest)))) = _
          rw [sliceEvens_flatten, sliceOdds_flatten, chainFromZip_flatten]
          rfl
  refine ⟨fun name f pairs => ⟨key name (some f) pairs, ?_⟩,
    fun name pairs => key name Option.none pairs,
    fun name tcf => by cases tcf <;> rfl⟩
  simp [flattenPairs_length]
  omega

/-- C3, counterexample: `DatetimeToTimestamp` does not always return the
milliseconds since the epoch truncated toward zero.  At the aware datetime
`datetime(7550, 1, 1, 0, 0, 0, 999, tzinfo=utc)` — instant
176087779200000999 µs, truncated milliseconds 176087779200000 — the code
(through binary64 `total_seconds() * 1e3`) returns 176087779200001, one
millisecond too high. -/
theorem datetimeToTimestamp_truncation_cex :
    DatetimeToTimestamp (some 0) (mkDatetime 7550 1 1 0 0 0 999 (some 0)) = 176087779200001
    ∧ interpUsec 0 (mkDatetime 7550 1 1 0 0 0 999 (some 0)) = 176087779200000999
    ∧ (176087779200000999 : ℤ).tdiv 1000 = 176087779200000 :=
  ⟨by decide, by decide, by decide⟩

/-- C3, amended: under exact evaluation of the floating-point
intermediates, `DatetimeToTimestamp(tz)(tm)` returns the milliseconds since
the epoch truncated toward zero of `tm` interpreted in `tz` when naive and
in its own timezone otherwise (under binary64 the result can be off by one
millisecond, see the counterexample); the spec's concrete example
`DatetimeToTimestamp(UTC)(datetime(2020,1,1,tzinfo=UTC)) = 1577836800000`
does hold exactly, binary64 roundings included. -/
theorem datetimeToTimestamp_spec_amended :
    (∀ (tz : Option ℤ) (tm : PyDatetime),
      DatetimeToTimestampExact tz tm = (interpUsec (tz.getD 0) tm).tdiv 1000)
    ∧ DatetimeToTimestamp (some 0) (mkDatetime 2020 1 1 0 0 0 0 (some 0)) = 1577836800000 := by
  refine ⟨fun tz tm => ?_, by decide⟩
  cases tm with
  | mk u tzo =>
    cases tzo with
    | none =>
      show pyTrunc ((dtSubUsec (localize (tz.getD 0) ⟨u, Option.none⟩) epochDT : ℚ)
        / 1000000 * 1000) = _
      rw [pyTrunc_usec_ms]
      simp [dtSubUsec, awareUsec, epochDT_usec, epochDT_tz, localize, interpUsec]
    | some o =>
      show pyTrunc ((dtSubUsec ⟨u, some o⟩ epochDT : ℚ) / 1000000 * 1000) = _
      rw [pyTrunc_usec_ms]
      simp [dtSubUsec, awareUsec, epochDT_usec, epochDT_tz, interpUsec]

/-- C4, counterexample: converting a Timestamp to a datetime and back does
not always return the same Timestamp.  At `ts = 2 ^ 63 - 1` the
conversion to a datetime raises (year out of the supported range 1–9999)
instead of producing a value, and at the in-range `ts = 268329980` the
binary64 roundtrip returns 268329979, dropping a millisecond. -/
theorem timestamp_datetime_roundtrip_cex :
    TimestampToDatetime (some 0) (2 ^ 63 - 1) = Except.error "year is out of range"
    ∧ (TimestampToDatetime (some 0) 268329980).map (DatetimeToTimestamp (some 0))
        = Except.ok 268329979 :=
  ⟨by decide, by decide⟩

/-- C4, amended: for every Timestamp whose instant shifted into the target
timezone lies inside Python's supported datetime range (years 1–9999),
converting to a datetime and back yields the same Timestamp when the
floating-point intermediates are evaluated exactly; under binary64 the
roundtrip can drop a millisecond or raise out of range (see the
counterexample). -/
theorem timestamp_datetime_roundtrip_amended (tz : Option ℤ) (ts : ℤ)
    (hlo : usecMin ≤ ts * 1000 + tz.getD 0 * 1000000)
    (hhi : ts * 1000 + tz.getD 0 * 1000000 ≤ usecMax) :
    (TimestampToDatetimeExact tz ts).map (DatetimeToTimestampExact tz) = Except.ok ts := by
  have hus : timestamp_to_unixExact ts * 1000000 = ((ts * 1000 : ℤ) : ℚ) := by
    unfold timestamp_to_unixExact
    push_cast
    ring
  unfold TimestampToDatetimeExact fromtimestamp
  rw [hus, rheInt_intCast, if_pos ⟨hlo, hhi⟩]
  show Except.ok (DatetimeToTimestampExact tz ⟨ts * 1000 + tz.getD 0 * 1000000, some (tz.getD 0)⟩)
    = Except.ok ts
  congr 1
  show pyTrunc ((dtSubUsec ⟨ts * 1000 + tz.getD 0 * 1000000, some (tz.getD 0)⟩ epochDT : ℚ)
    / 1000000 * 1000) = ts
  rw [pyTrunc_usec_ms]
  have hN : dtSubUsec ⟨ts * 1000 + tz.getD 0 * 1000000, some (tz.getD 0)⟩ epochDT
      = ts * 1000 := by
    simp [dtSubUsec, awareUsec, epochDT_usec, epochDT_tz]
  rw [hN, Int.mul_tdiv_cancel _ (by omega)]

/-- Witness for C4 at `ts = 0`, `tz = UTC`. -/
theorem timestamp_datetime_roundtrip_witness :
    (usecMin ≤ (0 : ℤ) * 1000 + (some (0 : ℤ)).getD 0 * 1000000
      ∧ (0 : ℤ) * 1000 + (some (0 : ℤ)).getD 0 * 1000000 ≤ usecMax)
    ∧ (TimestampToDatetimeExact (some 0) 0).map (DatetimeToTimestampExact (some 0))
        = Except.ok 0 :=
  ⟨⟨by decide, by decide⟩,
   timestamp_datetime_roundtrip_amended (some 0) 0 (by decide) (by decide)⟩

/-- C5, counterexample: `unixtime_to_timestamp(timestamp_to_unix(ts)) = ts`
fails under the binary64 arithmetic the code actually performs: already at
`ts = 4007` the roundtrip `int(float(4007) * 1e-3 * 1000)` returns 4006. -/
theorem unixtime_roundtrip_cex :
    unixtime_to_timestamp (timestamp_to_unix 4007) = 4006 := by decide

/-- C5, amended: `timestamp_to_unix` and `unixtime_to_timestamp` are
mutually inverse for every 64-bit signed Timestamp when the unix-seconds
intermediate is exact (`ts * 10⁻³ * 1000` truncated toward zero); under
binary64 the roundtrip can drop a millisecond (see the counterexample). -/
theorem unixtime_roundtrip_amended (ts : ℤ) (hlo : -(2 ^ 63) ≤ ts) (hhi : ts < 2 ^ 63) :
    unixtime_to_timestampExact (timestamp_to_unixExact ts) = ts := by
  have h : timestamp_to_unixExact ts * 1000 = (ts : ℚ) := by
    unfold timestamp_to_unixExact
    ring
  unfold unixtime_to_timestampExact
  rw [h, pyTrunc_intCast]

/-- Witness for C5 at `ts = 123456`. -/
theorem unixtime_roundtrip_witness :
    (-(2 ^ 63) ≤ (123456 : ℤ) ∧ (123456 : ℤ) < 2 ^ 63)
    ∧ unixtime_to_timestampExact (timestamp_to_unixExact 123456) = 123456 :=
  ⟨⟨by decide, by decide⟩, unixtime_roundtrip_amended 123456 (by decide) (by decide)⟩

/-- C6: `timeseries_time_value_pairs` returns an empty (falsy) response
unchanged; on an even-length flat response it returns the ordered pair list
`[(cast t1, v1), ..., (cast tn, vn)]`, where the cast is the supplied
`timestamp_cast_func` and defaults to Python's integer conversion
(`pyIntFn`) when the option is absent. -/
theorem timeseries_pairs_spec :
    (∀ tcf : Option (PyVal → PyVal), timeseries_time_value_pairs tcf [] = [])
    ∧ (∀ (f : PyVal → PyVal) (pairs : List (PyVal × PyVal)),
      timeseries_time_value_pairs (some f) (flattenPairs pairs)
        = pairs.map fun p => (f p.1, p.2))
    ∧ (∀ pairs : List (PyVal × PyVal),
      timeseries_time_value_pairs Option.none (flattenPairs pairs)
        = pairs.map fun p => (pyIntFn p.1, p.2)) := by
  refine ⟨fun tcf => rfl, fun f pairs => ?_, fun pairs => ?_⟩
  · cases pairs with
    | nil => rfl
    | cons p rest =>
      cases p with
      | mk t v =>
        have h1 : flattenPairs ((t, v) :: rest) = t :: v :: flattenPairs rest := rfl
        rw [h1,
          show timeseries_time_value_pairs (some f) (t :: v :: flattenPairs rest)
            = pairCast f (t :: v :: flattenPairs rest) from rfl,
          ← h1, pairCast_flatten]
  · cases pairs with
    | nil => rfl
    | cons p rest =>
      cases p with
      | mk t v =>
        have h1 : flattenPairs ((t, v) :: rest) = t :: v :: flattenPairs rest := rfl
        rw [h1,
          show timeseries_time_value_pairs Option.none (t :: v :: flattenPairs rest)
            = pairCast pyIntFn (t :: v :: flattenPairs rest) from rfl,
          ← h1, pairCast_flatten]

/-- C9: on a non-empty odd-length response
`[t1, v1, ..., tn, vn, x]`, `timeseries_time_value_pairs` silently drops
the trailing unpaired element `x` and returns the `n` complete pairs; being
a total function of the response it never raises. -/
theorem timeseries_pairs_odd_drop :
    ∀ (tcf : Option (PyVal → PyVal)) (pairs : List (PyVal × PyVal)) (x : PyVal),
      timeseries_time_value_pairs tcf (flattenPairs pairs ++ [x])
        = pairs.map fun p => (tcf.getD pyIntFn p.1, p.2) := by
  intro tcf pairs x
  cases pairs with
  | nil => rfl
  | cons p rest =>
    cases p with
    | mk t v =>
      have h1 : flattenPairs ((t, v) :: rest) ++ [x]
          = t :: v :: (flattenPairs rest ++ [x]) := rfl
      rw [h1,
        show timeseries_time_value_pairs tcf (t :: v :: (flattenPairs rest ++ [x]))
          = pairCast (tcf.getD pyIntFn) (t :: v :: (flattenPairs rest ++ [x])) from rfl,
        ← h1, pairCast_flatten_snoc]

/-- C7: `tsrangebytime(name)` with both bounds absent builds
`['TSRANGEBYTIME', name, -inf, inf]` with the literal float sentinels, not
omitting the bound arguments; in general each bound position carries the
sentinel whenever the bound is `None` or an infinite float, and otherwise
the bound cast by `time_cast_func` (raw when the cast is `None`), as
described by `boundArgSpec`. -/
theorem tsrangebytime_sentinels :
    (∀ (name : PyVal) (tcf : Option (PyVal → PyVal)),
      tsrangebytime name Option.none Option.none tcf
        = [PyVal.str "TSRANGEBYTIME", name, m_inf, p_inf])
    ∧ (∀ (name : PyVal) (tm_low tm_high : Option PyVal) (tcf : Option (PyVal → PyVal)),
      tsrangebytime name tm_low tm_high tcf
        = [PyVal.str "TSRANGEBYTIME", name, boundArgSpec m_inf tm_low tcf,
           boundArgSpec p_inf tm_high tcf]) :=
  ⟨fun name tcf => tsrangebytime_eq name Option.none Option.none tcf,
   fun name tm_low tm_high tcf => tsrangebytime_eq name tm_low tm_high tcf⟩

/-- C8: `tsrevrangebytime(name, tm_low, tm_high, num)` with `num` given
appends the `LIMIT` token followed by `num` immediately after the two
range-bound arguments; with `num = None` no LIMIT clause is appended. -/
theorem tsrevrangebytime_limit :
    ∀ (name : PyVal) (tm_low tm_high : Option PyVal) (tcf : Option (PyVal → PyVal)),
      (∀ n : PyVal,
        tsrevrangebytime name tm_low tm_high (some n) tcf
          = [PyVal.str "TSREVRANGEBYTIME", name, boundArgSpec m_inf tm_low tcf,
             boundArgSpec p_inf tm_high tcf] ++ [PyVal.tok "LIMIT", n])
      ∧ tsrevrangebytime name tm_low tm_high Option.none tcf
          = [PyVal.str "TSREVRANGEBYTIME", name, boundArgSpec m_inf tm_low tcf,
             boundArgSpec p_inf tm_high tcf] :=
  fun name tm_low tm_high tcf =>
    ⟨fun n => tsrevrangebytime_eq name tm_low tm_high (some n) tcf,
     by rw [tsrevrangebytime_eq]; simp [limitArgSpec]⟩

/-- C10: in `tsrangebytime` and `tsrevrangebytime` the sign of an infinite
bound is ignored — only the position decides the sentinel: any infinite
float as `tm_high` (negative infinity included) yields the `+inf` token,
and any infinite float as `tm_low` (positive infinity included) yields the
`-inf` token. -/
theorem infinite_bound_sign_ignored (x : PyFloat) (hx : x.isinf = true) :
    ∀ (name : PyVal) (tm_low tm_high num : Option PyVal) (tcf : Option (PyVal → PyVal)),
      tsrangebytime name tm_low (some (PyVal.float x)) tcf
        = [PyVal.str "TSRANGEBYTIME", name, boundArgSpec m_inf tm_low tcf, p_inf]
      ∧ tsrangebytime name (some (PyVal.float x)) tm_high tcf
        = [PyVal.str "TSRANGEBYTIME", name, m_inf, boundArgSpec p_inf tm_high tcf]
      ∧ tsrevrangebytime name tm_low (some (PyVal.float x)) num tcf
        = [PyVal.str "TSREVRANGEBYTIME", name, boundArgSpec m_inf tm_low tcf, p_inf]
          ++ limitArgSpec num
      ∧ tsrevrangebytime name (some (PyVal.float x)) tm_high num tcf
        = [PyVal.str "TSREVRANGEBYTIME", name, m_inf, boundArgSpec p_inf tm_high tcf]
          ++ limitArgSpec num := by
  intro name tm_low tm_high num tcf
  refine ⟨?_, ?_, ?_, ?_⟩
  · rw [tsrangebytime_eq, boundArgSpec_inf _ _ hx]
  · rw [tsrangebytime_eq, boundArgSpec_inf _ _ hx]
  · rw [tsrevrangebytime_eq, boundArgSpec_inf _ _ hx]
  · rw [tsrevrangebytime_eq, boundArgSpec_inf _ _ hx]

/-- Witness for C10: negative infinity in the high-bound position still
becomes the `+inf` sentinel. -/
theorem infinite_bound_sign_ignored_witness :
    PyFloat.minf.isinf = true
    ∧ tsrangebytime (PyVal.str "k") Option.none (some (PyVal.float PyFloat.minf)) Option.none
        = [PyVal.str "TSRANGEBYTIME", PyVal.str "k", m_inf, p_inf] :=
  ⟨by decide,
   by
    have h := (infinite_bound_sign_ignored PyFloat.minf (by decide) (PyVal.str "k")
      Option.none Option.none Option.none Option.none).1
    simpa [boundArgSpec] using h⟩

end Yedis
